import Mathlib

/-!
Verification of the glimmer frame-submission core against its specification.

Each component of the repository that the claims touch is shallowly embedded
below, translated directly from the Rust source:

* `TempAlloc`   — crates/graphics/src/memory/temp_allocator.rs
* `BlockAlloc`  — crates/graphics/src/memory/block_allocator.rs
* `Pool`        — crates/structures/src/generational_pool.rs (+ flagvec.rs)
* `Graph`       — crates/graphics/src/render_graph.rs
* `Queue`       — crates/graphics/src/dx12/queue.rs

Machine integers (u64/u32/u16) are modelled as `Nat` with explicit reduction
mod `2 ^ w` wherever the Rust arithmetic can wrap (release-build semantics);
Rust panics / failed assertions are modelled as `Option`/`none` results.
-/

namespace TempAlloc

/-- The modulus of u64 arithmetic. -/
def W : Nat := 2 ^ 64

/-- Wrapping u64 addition. -/
def add64 (a b : Nat) : Nat := (a + b) % W

/-- Wrapping u64 subtraction (two's complement semantics). -/
def sub64 (a b : Nat) : Nat := (a + (W - b % W)) % W

/-- The free function `next_multiple_of` from temp_allocator.rs. -/
def next_multiple_of (a b : Nat) : Nat :=
  if a % b = 0 then a else sub64 (add64 a b) (a % b)

/-- The `Error` enum of crates/graphics/src/memory/mod.rs. -/
inductive AllocError where
  | outOfMemory (capacity available requested : Nat)
  | insufficientCapacity
  | noHeap
deriving Repr, DecidableEq

/-- The `Allocation` struct of temp_allocator.rs. -/
structure Allocation where
  size : Nat
  virtual_offset : Nat
  heap_offset : Nat
deriving Repr, DecidableEq

/-- The `Allocator` struct of temp_allocator.rs (the `base_ptr` field is a raw
heap pointer and carries no allocation logic, so it is omitted). -/
structure Allocator where
  capacity : Nat
  bytes_freed : Nat
  bytes_allocated : Nat
deriving Repr, DecidableEq

/-- The `FrameAllocator` struct of temp_allocator.rs; the `allocator: &mut
Allocator` borrow becomes a field carried through explicitly. -/
structure FrameAllocator where
  bytes_allocated_at_start : Nat
  bytes_allocated : Nat
  alloc : Allocator
deriving Repr, DecidableEq

/-- The `FrameMarker` struct of temp_allocator.rs (`end` is a reserved word in
Lean, hence `endv`). -/
structure FrameMarker where
  endv : Nat
  start : Nat
deriving Repr, DecidableEq

/-- The private `Adjust` enum local to `FrameAllocator::allocate`. -/
inductive Adjust where
  | align
  | wrap

/-- `Allocator::new` (the heap pointer argument is dropped). -/
def Allocator.new (capacity : Nat) : Allocator :=
  { capacity, bytes_freed := 0, bytes_allocated := 0 }

/-- `Allocator::begin_frame` / `FrameAllocator::new`. -/
def Allocator.begin_frame (a : Allocator) : FrameAllocator :=
  { bytes_allocated_at_start := a.bytes_allocated
    bytes_allocated := a.bytes_allocated
    alloc := a }

/-- `FrameAllocator::allocate`, translated branch by branch.  The result pairs
the Rust return value with the mutated `self`. -/
def FrameAllocator.allocate (f : FrameAllocator) (size alignment : Nat) :
    Except AllocError Allocation × FrameAllocator :=
  let tail_ptr := f.alloc.bytes_freed % f.alloc.capacity
  let base_ptr := f.bytes_allocated % f.alloc.capacity
  let aligned_ptr := next_multiple_of base_ptr alignment
  if f.alloc.capacity < size then
    (Except.error AllocError.insufficientCapacity, f)
  else
    -- `tail_ptr.cmp(&base_ptr)`: Less / Equal / Greater
    let choice : Option Adjust :=
      if tail_ptr < base_ptr then
        if size ≤ sub64 f.alloc.capacity aligned_ptr then some Adjust.align
        else if size ≤ tail_ptr then some Adjust.wrap
        else none
      else if tail_ptr = base_ptr then
        if size ≤ sub64 f.alloc.capacity aligned_ptr then some Adjust.align
        else some Adjust.wrap
      else
        if size < sub64 tail_ptr aligned_ptr then some Adjust.align
        else none
    match choice with
    | none =>
        (Except.error (AllocError.outOfMemory f.alloc.capacity
            (sub64 f.alloc.capacity (sub64 f.bytes_allocated f.alloc.bytes_freed)) size),
          f)
    | some adj =>
        let pair :=
          match adj with
          | Adjust.align => (sub64 aligned_ptr base_ptr, aligned_ptr)
          | Adjust.wrap => (sub64 f.alloc.capacity base_ptr, 0)
        (Except.ok
            { size
              virtual_offset := add64 f.bytes_allocated pair.1
              heap_offset := pair.2 },
          { f with bytes_allocated := add64 f.bytes_allocated (add64 pair.1 size) })

/-- `FrameAllocator::finish`: commits the frame cursor back into the allocator
and returns the marker. -/
def FrameAllocator.finish (f : FrameAllocator) : Allocator × FrameMarker :=
  ({ f.alloc with bytes_allocated := f.bytes_allocated },
   { endv := f.bytes_allocated, start := f.bytes_allocated_at_start })

/-- `Allocator::free_frame`; `none` models the failed
`assert!(marker.start == self.bytes_freed)`. -/
def Allocator.free_frame (a : Allocator) (m : FrameMarker) : Option Allocator :=
  if m.start = a.bytes_freed then
    some { a with bytes_freed := add64 a.bytes_freed (sub64 m.endv m.start) }
  else none

/-- Runs one whole frame: `begin_frame`, a list of `allocate` requests
(size, alignment), then `finish`. -/
def runFrame (a : Allocator) (reqs : List (Nat × Nat)) : Allocator × FrameMarker :=
  (reqs.foldl (fun f r => (f.allocate r.1 r.2).2) a.begin_frame).finish

/-- One step of the allocator protocol: either run a whole frame (collecting
its marker at the back of the pending queue), or free the oldest pending
marker, i.e. free the markers in the order the frames were created. -/
inductive RingOp where
  | frame (reqs : List (Nat × Nat))
  | freeNext

/-- The allocator together with the queue of finished-but-unfreed markers;
`ok` records whether any `free_frame` assertion has failed so far. -/
structure RingState where
  alloc : Allocator
  pending : List FrameMarker
  ok : Bool

/-- Applies one `RingOp` to a `RingState`. -/
def ringStep (s : RingState) : RingOp → RingState
  | RingOp.frame reqs =>
      let p := runFrame s.alloc reqs
      { s with alloc := p.1, pending := s.pending ++ [p.2] }
  | RingOp.freeNext =>
      match s.pending with
      | [] => s
      | m :: rest =>
          match s.alloc.free_frame m with
          | none => { s with ok := false }
          | some a => { alloc := a, pending := rest, ok := s.ok }

/-- Runs a list of `RingOp`s. -/
def ringRun (s : RingState) : List RingOp → RingState
  | [] => s
  | op :: ops => ringRun (ringStep s op) ops

/-- The pending markers form a chain: each starts where the previous ended,
beginning at `v`, and each `endv` is a reduced u64. -/
def chain (v : Nat) : List FrameMarker → Prop
  | [] => True
  | m :: ms => m.start = v ∧ m.endv < W ∧ chain m.endv ms

/-- The end point of a marker chain starting at `v`. -/
def chainEnd (v : Nat) : List FrameMarker → Nat
  | [] => v
  | m :: ms => chainEnd m.endv ms

/-- The invariant tying the allocator cursors to the pending marker queue. -/
def RingInv (s : RingState) : Prop :=
  chain s.alloc.bytes_freed s.pending ∧
  chainEnd s.alloc.bytes_freed s.pending = s.alloc.bytes_allocated ∧
  s.alloc.bytes_freed < W ∧ s.alloc.bytes_allocated < W

end TempAlloc

namespace BlockAlloc

/-- The `Block` struct of block_allocator.rs; `start` is a `HeapOffset`
(a newtype over u64), `next` a usize free-list link. -/
structure Block where
  start : Nat
  next : Nat
deriving Repr, DecidableEq

/-- The `BlockAllocator` struct of block_allocator.rs. -/
structure BlockAllocator where
  blocks : List Block
  block_size : Nat
  first_free_block : Nat
deriving Repr, DecidableEq

/-- `BlockAllocator::new`.  The constructor asserts `block_size > 0` and
`block_size * max_blocks < u64::MAX`; theorems about `free` carry the former
as a hypothesis. -/
def BlockAllocator.new (block_size max_blocks : Nat) : BlockAllocator :=
  { blocks := (List.range max_blocks).map
      (fun i => { start := i * block_size, next := i + 1 })
    block_size
    first_free_block := 0 }

/-- `BlockAllocator::allocate`. -/
def BlockAllocator.allocate (b : BlockAllocator) :
    Except TempAlloc.AllocError Nat × BlockAllocator :=
  if h : b.first_free_block < b.blocks.length then
    let block := b.blocks.get ⟨b.first_free_block, h⟩
    (Except.ok block.start, { b with first_free_block := block.next })
  else
    (Except.error (TempAlloc.AllocError.outOfMemory b.blocks.length 0 1), b)

/-- `BlockAllocator::free`; `none` models a failed assertion: the code asserts
`offset % block_size == 0` and `block_index < blocks.len()` and nothing else. -/
def BlockAllocator.free (b : BlockAllocator) (offset : Nat) : Option BlockAllocator :=
  if offset % b.block_size = 0 then
    let block_index := offset / b.block_size
    if hb : block_index < b.blocks.length then
      let block := b.blocks.get ⟨block_index, hb⟩
      some { b with
        blocks := b.blocks.set block_index { block with next := b.first_free_block }
        first_free_block := block_index }
    else none
  else none

end BlockAlloc

namespace Pool

/-- The `FlagVec` of crates/structures/src/flagvec.rs, modelled bitwise: the
Rust version packs bits into `Vec<u64>` words and grows by whole words, but
every bit of a padded word is 0 and `get` returns false out of range, so a
`List Bool` padded with `false` has the same observable `get`/`set`
behaviour. -/
structure FlagVec where
  flags : List Bool
deriving Repr, DecidableEq

/-- `FlagVec::new`. -/
def FlagVec.new : FlagVec := ⟨[]⟩

/-- `FlagVec::get`: false when out of range. -/
def FlagVec.get (f : FlagVec) (i : Nat) : Bool := f.flags.getD i false

/-- `FlagVec::set`: grows with zero (false) bits as needed. -/
def FlagVec.set (f : FlagVec) (i : Nat) (v : Bool) : FlagVec :=
  ⟨(f.flags ++ List.replicate (i + 1 - f.flags.length) false).set i v⟩

/-- The unpacked form of `Handle<T>`: the Rust handle is a `NonZeroU64`
packing `generation << 32 | index`, a bijection on the (index, generation)
u32 pairs the pool creates, so the claims are stated on the unpacked pair
(`Handle_` in the source). -/
structure Handle_ where
  index : Nat
  generation : Nat
deriving Repr, DecidableEq

/-- The `Item<T>` union of the inline free list, as shadow state: `next` is
meaningful while the slot sits on the free list, `value` while it holds
data; writing one side of the Rust union invalidates the other, modelled by
setting the dead side to `none`. -/
structure Item (T : Type) where
  next : Option Nat
  value : Option T
deriving Repr, DecidableEq

/-- The `Slot<T>` struct: the generation lives outside the union so that it
survives free-list pushes. -/
structure Slot (T : Type) where
  generation : Nat
  item : Item T
deriving Repr, DecidableEq

/-- The `InlineFreeList<T>` struct. -/
structure InlineFreeList where
  next : Option Nat
  is_free : FlagVec
deriving Repr, DecidableEq

/-- `InlineFreeList::push`; `none` models the failed
`assert!(!self.is_free(index))` or an out-of-bounds `items[index]`. -/
def flPush (T : Type) (fl : InlineFreeList) (index : Nat) (items : List (Slot T)) :
    Option (InlineFreeList × List (Slot T)) :=
  if fl.is_free.get index then none
  else
    match items[index]? with
    | none => none
    | some slot =>
        some ({ next := some index, is_free := fl.is_free.set index true },
          items.set index { slot with item := { next := fl.next, value := none } })

/-- `InlineFreeList::pop`; the outer `Option` models a panic (failed
`assert!(self.is_free(index))` or out-of-bounds indexing), the inner one the
Rust return value: `some (index, fl')` pops slot `index` and updates the
list head to that slot's inline `next` pointer. -/
def flPop (T : Type) (fl : InlineFreeList) (items : List (Slot T)) :
    Option (Option (Nat × InlineFreeList)) :=
  match fl.next with
  | none => some none
  | some index =>
      if fl.is_free.get index then
        match items[index]? with
        | none => none
        | some slot =>
            some (some (index,
              { next := slot.item.next, is_free := fl.is_free.set index false }))
      else none

/-- The `GenerationalPool<T>` struct. -/
structure GenerationalPool (T : Type) where
  items : List (Slot T)
  free_list : InlineFreeList
deriving Repr, DecidableEq

/-- `GenerationalPool::new`: one slot with generation 1, pushed onto the free
list (the result of `free_list.push(0, &mut items)` on the singleton vec,
written out). -/
def GenerationalPool.new (T : Type) : GenerationalPool T :=
  { items := [{ generation := 1, item := { next := none, value := none } }]
    free_list := { next := some 0, is_free := FlagVec.new.set 0 true } }

/-- `GenerationalPool::get`: free-list check, bounds check, generation check,
then the stored value.  (In the source the value read is unchecked
(`assume_init_ref`); the model reads the shadow `value`, which is `some`
whenever the slot genuinely holds data.) -/
def GenerationalPool.get (p : GenerationalPool T) (h : Handle_) : Option T :=
  if p.free_list.is_free.get h.index then none
  else
    match p.items[h.index]? with
    | none => none
    | some slot => if slot.generation = h.generation then slot.item.value else none

/-- `GenerationalPool::insert`; `none` models a panic (an impossible free-list
inconsistency inside `pop`, or `u32::try_from(len)` overflowing). -/
def GenerationalPool.insert (p : GenerationalPool T) (v : T) :
    Option (Handle_ × GenerationalPool T) :=
  match flPop T p.free_list p.items with
  | none => none
  | some (some (index, fl)) =>
      match p.items[index]? with
      | none => none
      | some slot =>
          some ({ index, generation := slot.generation },
            { items := p.items.set index
                { slot with item := { next := none, value := some v } }
              free_list := fl })
  | some none =>
      if p.items.length < 2 ^ 32 then
        some ({ index := p.items.length, generation := 0 },
          { items := p.items ++
              [{ generation := 0, item := { next := none, value := some v } }]
            free_list := p.free_list })
      else none

/-- `GenerationalPool::remove`.  The first component is the Rust return value:
`some taken` when the handle is valid (with `taken` the shadow value of the
slot), `none` otherwise.  On a valid handle with unsaturated generation the
generation is bumped and the slot pushed (the push's assertions hold because
`validate` just checked them, so its success branch is written out); on a
saturated generation the slot is retired: the value is taken but the free
list is untouched. -/
def GenerationalPool.remove (p : GenerationalPool T) (h : Handle_) :
    Option (Option T) × GenerationalPool T :=
  if p.free_list.is_free.get h.index then (none, p)
  else
    match p.items[h.index]? with
    | none => (none, p)
    | some slot =>
        if slot.generation = h.generation then
          if slot.generation < 4294967295 then
            (some slot.item.value,
              { items := p.items.set h.index
                  { generation := slot.generation + 1
                    item := { next := p.free_list.next, value := none } }
                free_list := { next := some h.index
                               is_free := p.free_list.is_free.set h.index true } })
          else
            (some slot.item.value,
              { items := p.items.set h.index
                  { slot with item := { slot.item with value := none } }
                free_list := p.free_list })
        else (none, p)

/-- A pool operation: the mutations the pool exposes. -/
inductive PoolOp (T : Type) where
  | ins (v : T)
  | rem (h : Handle_)

/-- One operation; `none` models a panic inside `insert`.  Returns the handle
when the operation was an insert. -/
def poolStep (p : GenerationalPool T) :
    PoolOp T → Option (GenerationalPool T × Option Handle_)
  | PoolOp.ins v => (p.insert v).map (fun r => (r.2, some r.1))
  | PoolOp.rem h => some ((p.remove h).2, none)

/-- Runs a list of pool operations, collecting every handle `insert` returns;
a panic ends the run. -/
def poolRun (p : GenerationalPool T) : List (PoolOp T) → GenerationalPool T × List Handle_
  | [] => (p, [])
  | op :: ops =>
      match poolStep p op with
      | none => (p, [])
      | some (q, hnew) =>
          let r := poolRun q ops
          (r.1, hnew.toList ++ r.2)

/-- Slot `i` of pool `p` is retired: it exists, its generation is saturated at
`u32::MAX`, and it is not on the free list. -/
def Retired (p : GenerationalPool T) (i : Nat) : Prop :=
  i < p.items.length ∧
  (∀ slot, p.items[i]? = some slot → slot.generation = 4294967295) ∧
  p.free_list.is_free.get i = false

end Pool

namespace Graph

/-- The `RenderGraphCommand` enum of render_graph.rs (fields are u16). -/
inductive RenderGraphCommand where
  | Root
  | DrawRect (first_index num_indices : Nat)
  | DrawImmediate (first_index num_indices : Nat)
deriving Repr, DecidableEq

/-- The `RenderGraphNode` struct; the u16 link fields `next`, `first_child`,
`last_child` index into the flat node array, 0 meaning "none" (0 is the
root, which is never a child). -/
structure RenderGraphNode where
  next : Nat
  first_child : Nat
  last_child : Nat
  command : RenderGraphCommand
deriving Repr, DecidableEq

/-- The `RenderGraph` struct.  `V` stands for `Vertex` and `R` for
`RoundedRectVertex`; their float contents are opaque to the graph logic. -/
structure RenderGraph (V R : Type) where
  imm_indices : List Nat
  imm_vertices : List V
  imm_rect_vertices : List R
  nodes : List RenderGraphNode

/-- `RenderGraph::new` / `default`: only the root node. -/
def RenderGraph.new (V R : Type) : RenderGraph V R :=
  { imm_indices := []
    imm_vertices := []
    imm_rect_vertices := []
    nodes := [{ next := 0, first_child := 0, last_child := 0
                command := RenderGraphCommand.Root }] }

/-- The child-linking tail shared verbatim by `draw_immediate` and
`draw_rect`: set the parent's `last_child` to the new node, make it the
`first_child` if the parent had none, otherwise chain it after the previous
last child.  `none` models an out-of-bounds index panic. -/
def linkChild (nodes : List RenderGraphNode) (parent node_id : Nat) :
    Option (List RenderGraphNode) :=
  match nodes[parent]? with
  | none => none
  | some pnode =>
      let prev_sibling := pnode.last_child
      if pnode.first_child = 0 then
        some (nodes.set parent
          { pnode with last_child := node_id, first_child := node_id })
      else
        let nodes1 := nodes.set parent { pnode with last_child := node_id }
        match nodes1[prev_sibling]? with
        | none => none
        | some snode => some (nodes1.set prev_sibling { snode with next := node_id })

/-- `RenderGraph::draw_immediate`.  Indices are rebased by the vertex offset;
`none` models the `try_into::<u16>().unwrap()` panic on a rebased index
above `u16::MAX` (and out-of-bounds parent panics inside `linkChild`).  The
`as u16` casts on the node id and the index counts wrap, hence `% 65536`. -/
def RenderGraph.draw_immediate (g : RenderGraph V R) (parent : Nat)
    (vertices : List V) (indices : List Nat) : Option (RenderGraph V R) :=
  let vertex_offset := g.imm_vertices.length
  let rebased := indices.map (fun ix => ix + vertex_offset)
  if rebased.all (fun ix => ix ≤ 65535) then
    let node : RenderGraphNode :=
      { next := 0
        first_child := 0
        last_child := 0
        command := RenderGraphCommand.DrawImmediate (g.imm_indices.length % 65536)
                     (indices.length % 65536) }
    (linkChild (g.nodes ++ [node]) parent (g.nodes.length % 65536)).map (fun ns =>
      { g with nodes := ns
               imm_vertices := g.imm_vertices ++ vertices
               imm_indices := g.imm_indices ++ rebased })
  else none

/-- `RenderGraph::draw_rect`.  The four corner vertices (built in the source
from the f32 rect, colors and radii) are taken as opaque arguments — the
graph logic never inspects them; the six quad indices are the wrapping u16
sums the source computes. -/
def RenderGraph.draw_rect (g : RenderGraph V R) (parent : Nat)
    (v0 v1 v2 v3 : R) : Option (RenderGraph V R) :=
  let vertex_offset := g.imm_rect_vertices.length
  let vo16 := vertex_offset % 65536
  let indices := [vo16, (vo16 + 1) % 65536, (vo16 + 2) % 65536,
    vo16, (vo16 + 2) % 65536, (vo16 + 3) % 65536]
  let node : RenderGraphNode :=
    { next := 0
      first_child := 0
      last_child := 0
      command := RenderGraphCommand.DrawRect (g.imm_indices.length % 65536)
                   (6 % 65536) }
  (linkChild (g.nodes ++ [node]) parent (g.nodes.length % 65536)).map (fun ns =>
    { g with nodes := ns
             imm_rect_vertices := g.imm_rect_vertices ++ [v0, v1, v2, v3]
             imm_indices := g.imm_indices ++ indices })

/-- The sequence the child iterator yields: start at `current`, stop at 0,
follow `next` links; `none` models the panic of an out-of-bounds `next`
index, and the fuel (always passed as `nodes.length`, enough for any
acyclic sibling chain) cuts the unbounded Rust loop. -/
def childSeqAux (nodes : List RenderGraphNode) : Nat → Nat → Option (List Nat)
  | _, 0 => none
  | current, fuel + 1 =>
      if current = 0 then some []
      else
        match nodes[current]? with
        | none => none
        | some cn => (childSeqAux nodes cn.next fuel).map (fun l => current :: l)

/-- `RenderGraph::iter_children`, fully consumed into the list of node ids it
yields.  Restartability and non-mutation of the Rust iterator are inherent
here: it borrows the graph immutably (`&self`), and the model's traversal is
a pure function of the graph and the start node. -/
def RenderGraph.iter_children (g : RenderGraph V R) (node : Nat) :
    Option (List Nat) :=
  match g.nodes[node]? with
  | none => none
  | some n => childSeqAux g.nodes n.first_child g.nodes.length

end Graph

namespace Queue

/-- `SubmissionId`: a u64 fence value (monotonic, far from wrap; modelled as
an unbounded counter). -/
structure SubmissionId where
  val : Nat
deriving Repr, DecidableEq

/-- The `Recording` struct.  `commands` and `allocator` are the identities of
the D3D12 command list / command allocator objects (naturals standing for
the COM pointers); the recorded GPU commands themselves are external. -/
structure Recording where
  commands : Nat
  barriers : List Nat
  allocator : Nat
deriving Repr, DecidableEq

/-- The private `Submission<T>` struct: one outstanding submission in the
FIFO. -/
structure Submission (T : Type) where
  data : T
  barriers : List Nat
  allocator : Nat
  fence_value : SubmissionId

/-- The `Graphics<T>` queue state.  The GPU-side objects (queue, fence,
event) are external; the hardware fence's completed value is passed into
each operation that reads it (`completed`). -/
structure Graphics (T : Type) where
  last_value : Nat
  next_value : Nat
  commands : List Nat
  submissions : List (Submission T)

/-- `Graphics::new`: `last_value = 0`, `next_value = 1` (the constructor
signals the fence to 1), empty pools. -/
def Graphics.new (T : Type) : Graphics T :=
  { last_value := 0, next_value := 1, commands := [], submissions := [] }

/-- `Graphics::poll_fence`: fold the hardware's completed value into the
cache (monotonically). -/
def Graphics.poll_fence (q : Graphics T) (completed : Nat) :
    Graphics T × SubmissionId :=
  ({ q with last_value := max q.last_value completed },
   ⟨max q.last_value completed⟩)

/-- `Graphics::is_complete`: poll lazily (only when the queried value is
newer than the cache), then compare against the cache. -/
def Graphics.is_complete (q : Graphics T) (completed : Nat)
    (fence_value : SubmissionId) : Bool × Graphics T :=
  let q1 := if q.last_value < fence_value.val then (q.poll_fence completed).1 else q
  (decide (fence_value.val ≤ q1.last_value), q1)

/-- `Graphics::record`.  If the oldest outstanding submission is complete, it
is popped: its command allocator is reset and reused, its barrier records
are drained, and its payload is handed back; otherwise a fresh allocator
(identity `fresh_allocator`, created by the device) is used and the FIFO is
untouched.  Then a pooled command list is reused (`Vec::pop`, i.e. the last
one) or a fresh one is created. -/
def Graphics.record (q : Graphics T)
    (completed fresh_allocator fresh_commands : Nat) :
    (Recording × Option T) × Graphics T :=
  let step1 : (Nat × List Nat × Option T) × Graphics T :=
    match q.submissions with
    | submission :: _ =>
        let r := q.is_complete completed submission.fence_value
        if r.1 then
          ((submission.allocator, [], some submission.data),
            { r.2 with submissions := r.2.submissions.tail })
        else ((fresh_allocator, [], none), r.2)
    | [] => ((fresh_allocator, [], none), q)
  let q1 := step1.2
  let step2 : Nat × Graphics T :=
    match q1.commands.getLast? with
    | some c => (c, { q1 with commands := q1.commands.dropLast })
    | none => (fresh_commands, q1)
  (({ commands := step2.1, barriers := step1.1.2.1, allocator := step1.1.1 },
      step1.1.2.2),
    step2.2)

/-- `Graphics::submit`: close and execute the command list (GPU side,
external), signal the fence to `next_value`, push the command list back into
the pool and the submission onto the FIFO, and bump the counter. -/
def Graphics.submit (q : Graphics T) (recording : Recording) (value : T) :
    SubmissionId × Graphics T :=
  let next_value := q.next_value
  (⟨next_value⟩,
   { q with next_value := next_value + 1
            commands := q.commands ++ [recording.commands]
            submissions := q.submissions ++
              [{ data := value
                 barriers := recording.barriers
                 allocator := recording.allocator
                 fence_value := ⟨next_value⟩ }] })

end Queue

-- ### Theorems

namespace TempAlloc

theorem W_pos : 0 < W := by decide

theorem add64_lt (a b : Nat) : add64 a b < W := Nat.mod_lt _ W_pos

/-- Modular cancellation: adding back the wrapped difference recovers `b`. -/
theorem add64_sub64_cancel (a b : Nat) (hb : b < W) : add64 a (sub64 b a) = b := by
  unfold add64 sub64 W at *
  omega

theorem chain_append {v : Nat} {p : List FrameMarker} (m : FrameMarker)
    (h : chain v p) (hs : m.start = chainEnd v p) (he : m.endv < W) :
    chain v (p ++ [m]) := by
  induction p generalizing v with
  | nil => exact ⟨hs, he, trivial⟩
  | cons q qs ih =>
      obtain ⟨h1, h2, h3⟩ := h
      exact ⟨h1, h2, ih h3 hs⟩

theorem chainEnd_append {v : Nat} {p : List FrameMarker} (m : FrameMarker) :
    chainEnd v (p ++ [m]) = m.endv := by
  induction p generalizing v with
  | nil => rfl
  | cons q qs ih => exact ih

/-- A single `allocate` call leaves the borrowed allocator and the frame start
untouched, and either leaves the frame cursor alone (error) or stores a
reduced u64 into it. -/
theorem allocate_frame_fields (f : FrameAllocator) (s al : Nat) :
    (f.allocate s al).2.alloc = f.alloc ∧
    (f.allocate s al).2.bytes_allocated_at_start = f.bytes_allocated_at_start ∧
    ((f.allocate s al).2.bytes_allocated = f.bytes_allocated ∨
      (f.allocate s al).2.bytes_allocated < W) := by
  unfold FrameAllocator.allocate
  dsimp only
  split
  · exact ⟨rfl, rfl, Or.inl rfl⟩
  · split
    · exact ⟨rfl, rfl, Or.inl rfl⟩
    · exact ⟨rfl, rfl, Or.inr (add64_lt _ _)⟩

theorem foldl_allocate_fields (reqs : List (Nat × Nat)) (f : FrameAllocator) :
    (reqs.foldl (fun g r => (g.allocate r.1 r.2).2) f).alloc = f.alloc ∧
    (reqs.foldl (fun g r => (g.allocate r.1 r.2).2) f).bytes_allocated_at_start =
      f.bytes_allocated_at_start ∧
    ((reqs.foldl (fun g r => (g.allocate r.1 r.2).2) f).bytes_allocated =
        f.bytes_allocated ∨
      (reqs.foldl (fun g r => (g.allocate r.1 r.2).2) f).bytes_allocated < W) := by
  induction reqs generalizing f with
  | nil => exact ⟨rfl, rfl, Or.inl rfl⟩
  | cons r rs ih =>
      simp only [List.foldl_cons]
      obtain ⟨h1, h2, h3⟩ := ih ((f.allocate r.1 r.2).2)
      obtain ⟨g1, g2, g3⟩ := allocate_frame_fields f r.1 r.2
      refine ⟨h1.trans g1, h2.trans g2, ?_⟩
      omega

/-- What `runFrame` does to the allocator and what marker it returns. -/
theorem runFrame_spec (a : Allocator) (reqs : List (Nat × Nat)) :
    (runFrame a reqs).2.start = a.bytes_allocated ∧
    (runFrame a reqs).1.bytes_allocated = (runFrame a reqs).2.endv ∧
    (runFrame a reqs).1.bytes_freed = a.bytes_freed ∧
    (runFrame a reqs).1.capacity = a.capacity ∧
    ((runFrame a reqs).2.endv = a.bytes_allocated ∨ (runFrame a reqs).2.endv < W) := by
  obtain ⟨h1, h2, h3⟩ := foldl_allocate_fields reqs a.begin_frame
  unfold runFrame FrameAllocator.finish
  refine ⟨h2, rfl, ?_, ?_, h3⟩
  · simpa using congrArg Allocator.bytes_freed h1
  · simpa using congrArg Allocator.capacity h1

/-- `ringStep` preserves the invariant and never clears `ok`. -/
theorem ringStep_preserves (s : RingState) (op : RingOp) (h : RingInv s) :
    RingInv (ringStep s op) ∧ (ringStep s op).ok = s.ok := by
  obtain ⟨al, pend, okv⟩ := s
  obtain ⟨hc, he, hf, ha⟩ := h
  dsimp only at hc he hf ha
  cases op with
  | frame reqs =>
      obtain ⟨r1, r2, r3, r4, r5⟩ := runFrame_spec al reqs
      have hend : (runFrame al reqs).2.endv < W := by omega
      refine ⟨⟨?_, ?_, ?_, ?_⟩, by trivial⟩ <;> simp only [ringStep]
      · rw [r3]
        exact chain_append _ hc (by omega) hend
      · rw [r3, chainEnd_append, r2]
      · rw [r3]
        exact hf
      · omega
  | freeNext =>
      cases pend with
      | nil => exact ⟨⟨hc, he, hf, ha⟩, rfl⟩
      | cons m rest =>
          obtain ⟨h1, h2, h3⟩ := hc
          have hfree : al.free_frame m =
              some { al with
                bytes_freed := add64 al.bytes_freed (sub64 m.endv m.start) } := by
            unfold Allocator.free_frame
            rw [if_pos h1]
          have hnew : add64 al.bytes_freed (sub64 m.endv m.start) = m.endv := by
            rw [h1]
            exact add64_sub64_cancel _ _ h2
          simp only [ringStep, hfree]
          rw [hnew]
          exact ⟨⟨h3, he, h2, ha⟩, by trivial⟩

/-- Runs preserve the invariant and `ok`. -/
theorem ringRun_ok (ops : List RingOp) (s : RingState) (h : RingInv s)
    (hok : s.ok = true) : (ringRun s ops).ok = true := by
  induction ops generalizing s with
  | nil => exact hok
  | cons op rest ih =>
      obtain ⟨h1, h2⟩ := ringStep_preserves s op h
      exact ih (ringStep s op) h1 (h2.trans hok)

/-- The freshly constructed allocator satisfies the invariant. -/
theorem ringInv_new (capacity : Nat) :
    RingInv { alloc := Allocator.new capacity, pending := [], ok := true } :=
  ⟨trivial, rfl, W_pos, W_pos⟩



/-- Every `allocate` call either returns a successful allocation or leaves the
frame allocator untouched. -/
theorem allocate_error_frame (f : FrameAllocator) (size alignment : Nat) :
    (∃ r, (f.allocate size alignment).1 = Except.ok r) ∨
      (f.allocate size alignment).2 = f := by
  unfold FrameAllocator.allocate
  dsimp only
  split
  · exact Or.inr rfl
  · split
    · exact Or.inr rfl
    · exact Or.inl ⟨_, rfl⟩

/-- C1: the claim fails on the code.  `allocate 100 1` fills the whole
100-byte ring within one frame, so the live (allocated-but-not-freed) region
is the entire capacity and the claim demands that the next request fail with
`OutOfMemory`; instead the code returns a fresh allocation at heap offset 0,
because the `tail_ptr.cmp(&base_ptr) == Equal` branch cannot distinguish a
completely full ring from a completely empty one. -/
theorem C1_full_ring_allocate_wrongly_succeeds :
    (((Allocator.new 100).begin_frame.allocate 100 1).2.bytes_allocated -
        ((Allocator.new 100).begin_frame.allocate 100 1).2.alloc.bytes_freed = 100) ∧
    ((((Allocator.new 100).begin_frame.allocate 100 1).2.allocate 10 1).1 =
      Except.ok { size := 10, virtual_offset := 100, heap_offset := 0 }) :=
  ⟨rfl, rfl⟩

/-- C3: `free_frame` fails its assertion exactly when the marker's `start`
differs from the freed cursor `bytes_freed`, and along every sequence of
frame (begin_frame / allocate* / finish) and free_frame operations starting
from a fresh allocator, freeing the finished markers in frame-creation order
never trips the assertion. -/
theorem C3_free_frame_ordering (a : Allocator) (m : FrameMarker)
    (capacity : Nat) (ops : List RingOp) :
    (a.free_frame m = none ↔ m.start ≠ a.bytes_freed) ∧
    (ringRun { alloc := Allocator.new capacity, pending := [], ok := true } ops).ok
      = true := by
  constructor
  · unfold Allocator.free_frame
    split
    · simp_all
    · simp_all
  · exact ringRun_ok ops _ (ringInv_new capacity) rfl

/-- C6: the claim fails on the code.  With capacity 100, after a 99-byte
allocation the ring position is 99; a request of 4 bytes at alignment 8 puts
the aligned pointer at 104 > capacity, the u64 subtraction
`capacity - aligned_ptr` wraps around, the Align case is chosen, and the
returned allocation has `heap_offset = 104`: `heap_offset + size ≤ capacity`
is violated and the allocation lies entirely beyond the buffer. -/
theorem C6_allocation_beyond_capacity :
    ((((Allocator.new 100).begin_frame.allocate 99 1).2.allocate 4 8).1 =
      Except.ok { size := 4, virtual_offset := 104, heap_offset := 104 }) ∧
    ¬ (104 + 4 ≤ 100) :=
  ⟨rfl, by decide⟩

/-- C10: when `allocate` returns an error (`OutOfMemory` or
`InsufficientCapacity`), the allocator state — the frame cursor, the frame
start, and the underlying allocator's `bytes_allocated` and `bytes_freed` —
is exactly what it was before the call. -/
theorem C10_failed_allocate_leaves_state_unchanged (f : FrameAllocator)
    (size alignment : Nat) (e : AllocError)
    (h : (f.allocate size alignment).1 = Except.error e) :
    (f.allocate size alignment).2 = f := by
  rcases allocate_error_frame f size alignment with ⟨r, hr⟩ | h2
  · rw [hr] at h
    simp at h
  · exact h2

/-- C10 witness: a concrete failing allocation (request of 20 bytes from a
10-byte ring) leaves the frame allocator unchanged. -/
theorem C10_failed_allocate_leaves_state_unchanged_witness :
    ((Allocator.new 10).begin_frame.allocate 20 1).2 = (Allocator.new 10).begin_frame :=
  C10_failed_allocate_leaves_state_unchanged (Allocator.new 10).begin_frame 20 1
    AllocError.insufficientCapacity rfl

end TempAlloc

namespace BlockAlloc

/-- C5 counterexample: the claim fails on the code.  In a 2-block allocator
with block size 8, block 0 is allocated and then freed; freeing offset 0 a
second time — a double free of an offset that is already free — does NOT
trip any assertion: the call succeeds (returns `some`), merely relinking the
free list.  The code only asserts alignment and bounds. -/
theorem C5_double_free_not_asserted :
    (((BlockAllocator.new 8 2).allocate.2.free 0).bind (fun b => b.free 0)).isSome
      = true := by decide

/-- C5 amended: `free offset` fails an assertion (a programmer-error panic)
exactly when `offset` is not a multiple of `block_size` or when
`offset / block_size` is out of bounds; an already-free offset is not
detected. -/
theorem C5_free_assertion_characterization (b : BlockAllocator) (offset : Nat)
    (hbs : 0 < b.block_size) :
    b.free offset = none ↔
      (offset % b.block_size ≠ 0 ∨ b.blocks.length ≤ offset / b.block_size) := by
  unfold BlockAllocator.free
  dsimp only
  split
  · split
    · simp_all
    · simp_all
  · simp_all

/-- C5 witness: freeing misaligned offset 3 in a fresh 8-byte-block allocator
trips the assertion. -/
theorem C5_free_assertion_characterization_witness :
    (BlockAllocator.new 8 2).free 3 = none :=
  (C5_free_assertion_characterization (BlockAllocator.new 8 2) 3 (by decide)).mpr
    (Or.inl (by decide))

end BlockAlloc

namespace Pool

theorem getD_replicate_false (k j : Nat) :
    (List.replicate k false).getD j false = false := by
  induction k generalizing j with
  | zero => rfl
  | succ n ih =>
      cases j with
      | zero => rfl
      | succ m => exact ih m

theorem getD_pad (l : List Bool) (k j : Nat) :
    (l ++ List.replicate k false).getD j false = l.getD j false := by
  induction l generalizing j with
  | nil => exact getD_replicate_false k j
  | cons a t ih =>
      cases j with
      | zero => rfl
      | succ m => exact ih m

theorem getD_set_self (l : List Bool) (i : Nat) (v : Bool) (h : i < l.length) :
    (l.set i v).getD i false = v := by
  induction l generalizing i with
  | nil => cases h
  | cons a t ih =>
      cases i with
      | zero => rfl
      | succ m => exact ih m (Nat.lt_of_succ_lt_succ h)

theorem getD_set_ne (l : List Bool) (i j : Nat) (v : Bool) (h : j ≠ i) :
    (l.set i v).getD j false = l.getD j false := by
  induction l generalizing i j with
  | nil => rfl
  | cons a t ih =>
      cases i with
      | zero =>
          cases j with
          | zero => exact absurd rfl h
          | succ m => rfl
      | succ n =>
          cases j with
          | zero => rfl
          | succ m => exact ih n m (fun hh => h (congrArg Nat.succ hh))

/-- Setting bit `i` makes `get i` return the value. -/
theorem FlagVec.get_set_self (f : FlagVec) (i : Nat) (v : Bool) :
    (f.set i v).get i = v := by
  unfold FlagVec.set FlagVec.get
  have hlen : i < (f.flags ++ List.replicate (i + 1 - f.flags.length) false).length := by
    simp only [List.length_append, List.length_replicate]
    omega
  exact getD_set_self _ _ _ hlen

/-- Setting bit `i` leaves every other bit unchanged. -/
theorem FlagVec.get_set_ne (f : FlagVec) (i j : Nat) (v : Bool) (h : j ≠ i) :
    (f.set i v).get j = f.get j := by
  unfold FlagVec.set FlagVec.get
  rw [getD_set_ne _ _ _ _ h, getD_pad]

end Pool

namespace Pool

/-- C2: ABA safety of the generational pool.  First conjunct: the concrete
scenario — `h1 = insert v1`, `remove h1`, then `h2 = insert v2` reuses slot
0 (same index, bumped generation), after which `get h1 = none` while
`get h2 = some v2`; every intermediate state is written out.  Second
conjunct: in every pool state, `get h` returns a value if and only if the
slot at the handle's index exists, is occupied (not on the free list and
holding a value), and its stored generation equals the handle's. -/
theorem C2_generational_get_validity (T : Type) (v1 v2 : T) :
    ((GenerationalPool.new T).insert v1 =
        some ({ index := 0, generation := 1 },
          { items := [{ generation := 1, item := { next := none, value := some v1 } }]
            free_list := { next := none, is_free := { flags := [false] } } }) ∧
      GenerationalPool.remove
          { items := [{ generation := 1, item := { next := none, value := some v1 } }]
            free_list := { next := none, is_free := { flags := [false] } } }
          { index := 0, generation := 1 } =
        (some (some v1),
          { items := [{ generation := 2, item := { next := none, value := none } }]
            free_list := { next := some 0, is_free := { flags := [true] } } }) ∧
      GenerationalPool.insert
          { items := [{ generation := 2, item := { next := none, value := none } }]
            free_list := { next := some 0, is_free := { flags := [true] } } } v2 =
        some ({ index := 0, generation := 2 },
          { items := [{ generation := 2, item := { next := none, value := some v2 } }]
            free_list := { next := none, is_free := { flags := [false] } } }) ∧
      GenerationalPool.get
          { items := [{ generation := 2, item := { next := none, value := some v2 } }]
            free_list := { next := none, is_free := { flags := [false] } } }
          { index := 0, generation := 1 } = none ∧
      GenerationalPool.get
          { items := [{ generation := 2, item := { next := none, value := some v2 } }]
            free_list := { next := none, is_free := { flags := [false] } } }
          { index := 0, generation := 2 } = some v2) ∧
    ∀ (p : GenerationalPool T) (h : Handle_),
      (p.get h).isSome ↔
        ∃ slot, p.items[h.index]? = some slot ∧
          p.free_list.is_free.get h.index = false ∧
          slot.generation = h.generation ∧ slot.item.value.isSome := by
  refine ⟨⟨rfl, rfl, rfl, rfl, rfl⟩, ?_⟩
  intro p h
  unfold GenerationalPool.get
  split
  · simp_all
  · split
    · simp_all [List.getElem?_eq_none]
    · split
      · simp_all
      · simp_all

end Pool

namespace Pool

/-- C4 counterexample: the claim fails on the code.  Insert values into slots
0, 1, 2; free slot 0 first (handle ⟨0,1⟩), then slot 1 (handle ⟨1,0⟩); the
free list now holds both, and the OLDEST freed slot is 0.  The next insert
returns a handle with index 1 — the MOST RECENTLY freed slot — because the
inline free list is a LIFO stack (push and pop both act on the head). -/
theorem C4_insert_reuses_most_recent_free :
    (((GenerationalPool.new Nat).insert 10).bind (fun ra =>
      (ra.2.insert 11).bind (fun rb =>
        (rb.2.insert 12).bind (fun rc =>
          ((rc.2.remove ra.1).2.remove rb.1).2.insert 13)))).map (fun rd => rd.1.index)
      = some 1 ∧ (1 : Nat) ≠ 0 := by decide

/-- C4 amended: when the free list is empty, `insert` grows the backing array
by exactly one slot with generation 0 and touches no existing slot; when the
free list is non-empty, `insert` reuses exactly the slot at the head of the
free list — which is the most recently freed slot, since `remove` pushes the
just-freed index onto the head — and does not grow the array. -/
theorem C4_insert_growth_and_reuse (T : Type) (v : T) (p : GenerationalPool T) :
    (p.free_list.next = none → p.items.length < 2 ^ 32 →
      p.insert v = some ({ index := p.items.length, generation := 0 },
        { items := p.items ++
            [{ generation := 0, item := { next := none, value := some v } }]
          free_list := p.free_list })) ∧
    (∀ i, p.free_list.next = some i → ∀ h q, p.insert v = some (h, q) →
      h.index = i ∧ q.items.length = p.items.length) ∧
    (∀ h x q, p.remove h = (some x, q) →
      (∀ slot, p.items[h.index]? = some slot → slot.generation < 4294967295) →
      q.free_list.next = some h.index) := by
  refine ⟨?_, ?_, ?_⟩
  · intro h1 h2
    unfold GenerationalPool.insert flPop
    rw [h1]
    dsimp only
    rw [if_pos h2]
  · intro i hi h q he
    unfold GenerationalPool.insert flPop at he
    rw [hi] at he
    dsimp only at he
    by_cases hfree : p.free_list.is_free.get i = true
    · rw [if_pos hfree] at he
      cases hitem : p.items[i]? with
      | none =>
          rw [hitem] at he
          simp at he
      | some slot =>
          rw [hitem] at he
          dsimp only at he
          rw [hitem] at he
          dsimp only at he
          simp only [Option.some_inj, Prod.mk.injEq] at he
          obtain ⟨he1, he2⟩ := he
          subst he1
          subst he2
          exact ⟨rfl, by simp [List.length_set]⟩
    · rw [if_neg hfree] at he
      simp at he
  · intro h x q he hlt
    unfold GenerationalPool.remove at he
    split at he
    · simp at he
    · split at he
      · simp at he
      · next slot heq =>
          split at he
          · split at he
            · simp only [Prod.mk.injEq] at he
              obtain ⟨-, he2⟩ := he
              subst he2
              rfl
            · next hsat => exact absurd (hlt slot heq) hsat
          · simp at he

end Pool

namespace Pool

/-- Case analysis of a successful `insert`: either the free list was empty and
the pool grew by one generation-0 slot, or the head of the free list was
reused. -/
theorem insert_eq_some (T : Type) (p : GenerationalPool T) (v : T) (hh : Handle_)
    (q : GenerationalPool T) (he : p.insert v = some (hh, q)) :
    (p.free_list.next = none ∧ hh.index = p.items.length ∧
      q.items = p.items ++
        [{ generation := 0, item := { next := none, value := some v } }] ∧
      q.free_list = p.free_list) ∨
    (∃ slot, p.free_list.next = some hh.index ∧
      p.free_list.is_free.get hh.index = true ∧
      p.items[hh.index]? = some slot ∧
      q.items = p.items.set hh.index
        { slot with item := { next := none, value := some v } } ∧
      q.free_list = { next := slot.item.next
                      is_free := p.free_list.is_free.set hh.index false }) := by
  unfold GenerationalPool.insert flPop at he
  cases hn : p.free_list.next with
  | none =>
      rw [hn] at he
      dsimp only at he
      split at he
      · simp only [Option.some_inj, Prod.mk.injEq] at he
        obtain ⟨he1, he2⟩ := he
        subst he1
        subst he2
        exact Or.inl ⟨rfl, rfl, rfl, rfl⟩
      · simp at he
  | some j =>
      rw [hn] at he
      dsimp only at he
      by_cases hfree : p.free_list.is_free.get j = true
      · rw [if_pos hfree] at he
        cases hitem : p.items[j]? with
        | none =>
            rw [hitem] at he
            simp at he
        | some slot =>
            rw [hitem] at he
            dsimp only at he
            rw [hitem] at he
            dsimp only at he
            simp only [Option.some_inj, Prod.mk.injEq] at he
            obtain ⟨he1, he2⟩ := he
            subst he1
            subst he2
            exact Or.inr ⟨slot, rfl, hfree, hitem, rfl, rfl⟩
      · rw [if_neg hfree] at he
        simp at he

/-- Case analysis of `remove`: either the handle was invalid and the pool is
untouched, or the slot is emptied, with the generation bumped and the slot
pushed when unsaturated, and the free list untouched when saturated. -/
theorem remove_cases (T : Type) (p : GenerationalPool T) (h : Handle_) :
    (p.remove h).2 = p ∨
    (∃ slot, p.items[h.index]? = some slot ∧
      p.free_list.is_free.get h.index = false ∧
      slot.generation = h.generation ∧
      ((slot.generation < 4294967295 ∧
        (p.remove h).2 =
          { items := p.items.set h.index
                       { generation := slot.generation + 1
                         item := { next := p.free_list.next, value := none } }
            free_list := { next := some h.index
                           is_free := p.free_list.is_free.set h.index true } }) ∨
       (¬ slot.generation < 4294967295 ∧
        (p.remove h).2 =
          { items := p.items.set h.index
                       { slot with item := { slot.item with value := none } }
            free_list := p.free_list }))) := by
  unfold GenerationalPool.remove
  split
  · exact Or.inl rfl
  · next hfr =>
      split
      · exact Or.inl rfl
      · next slot heq =>
          split
          · next hgen =>
              split
              · next hlt =>
                  exact Or.inr ⟨slot, heq, by simpa using hfr, hgen, Or.inl ⟨hlt, rfl⟩⟩
              · next hlt =>
                  exact Or.inr ⟨slot, heq, by simpa using hfr, hgen, Or.inr ⟨hlt, rfl⟩⟩
          · exact Or.inl rfl

/-- A successful `insert` preserves retirement of slot `i` and never hands out
a handle to it. -/
theorem retired_insert (T : Type) (v : T) (p : GenerationalPool T) (hh : Handle_)
    (q : GenerationalPool T) (he : p.insert v = some (hh, q)) (i : Nat)
    (hr : Retired p i) : Retired q i ∧ hh.index ≠ i := by
  obtain ⟨hlen, hgen, hfree⟩ := hr
  rcases insert_eq_some T p v hh q he with ⟨h1, h2, h3, h4⟩ | ⟨slot, h1, h2, h3, h4, h5⟩
  · have hne : hh.index ≠ i := by omega
    refine ⟨⟨?_, ?_, ?_⟩, hne⟩
    · rw [h3]
      simp only [List.length_append, List.length_singleton]
      omega
    · intro s hs
      rw [h3, List.getElem?_append_left hlen] at hs
      exact hgen s hs
    · rw [h4]
      exact hfree
  · have hne : hh.index ≠ i := by
      intro hcontra
      rw [hcontra, hfree] at h2
      cases h2
    refine ⟨⟨?_, ?_, ?_⟩, hne⟩
    · rw [h4]
      simpa [List.length_set] using hlen
    · intro s hs
      rw [h4, List.getElem?_set_ne hne] at hs
      exact hgen s hs
    · rw [h5]
      exact (FlagVec.get_set_ne _ _ _ _ (fun hc => hne hc.symm)).trans hfree

/-- `remove` preserves retirement of slot `i`. -/
theorem retired_remove (T : Type) (p : GenerationalPool T) (h : Handle_) (i : Nat)
    (hr : Retired p i) : Retired ((p.remove h).2) i := by
  obtain ⟨hlen, hgen, hfree⟩ := hr
  rcases remove_cases T p h with heq | ⟨slot, h1, h2, h3, hcase⟩
  · rw [heq]
    exact ⟨hlen, hgen, hfree⟩
  · by_cases hne : h.index = i
    · subst hne
      have hmax : slot.generation = 4294967295 := hgen slot h1
      rcases hcase with ⟨hlt, _⟩ | ⟨hnlt, heq2⟩
      · omega
      · rw [heq2]
        have hblen : h.index < p.items.length := (List.getElem?_eq_some.mp h1).1
        refine ⟨?_, ?_, ?_⟩
        · simpa [List.length_set] using hlen
        · intro s hs
          rw [List.getElem?_set_eq_of_lt _ hblen, Option.some_inj] at hs
          subst hs
          exact hmax
        · exact hfree
    · have hne2 : h.index ≠ i := hne
      rcases hcase with ⟨_, heq2⟩ | ⟨_, heq2⟩ <;> rw [heq2]
      · refine ⟨by simpa [List.length_set] using hlen, ?_, ?_⟩
        · intro s hs
          rw [List.getElem?_set_ne hne2] at hs
          exact hgen s hs
        · exact (FlagVec.get_set_ne _ _ _ _ (fun hc => hne2 hc.symm)).trans hfree
      · refine ⟨by simpa [List.length_set] using hlen, ?_, ?_⟩
        · intro s hs
          rw [List.getElem?_set_ne hne2] at hs
          exact hgen s hs
        · exact hfree

/-- One pool operation preserves retirement and yields no handle to a retired
slot. -/
theorem retired_poolStep (T : Type) (p : GenerationalPool T) (op : PoolOp T)
    (i : Nat) (hr : Retired p i) :
    ∀ q hnew, poolStep p op = some (q, hnew) →
      Retired q i ∧ ∀ hh, hnew = some hh → hh.index ≠ i := by
  intro q hnew hstep
  cases op with
  | ins v =>
      simp only [poolStep] at hstep
      cases hins : p.insert v with
      | none =>
          rw [hins] at hstep
          simp at hstep
      | some r =>
          rw [hins] at hstep
          simp only [Option.map_some', Option.some_inj, Prod.mk.injEq] at hstep
          obtain ⟨hq, hn⟩ := hstep
          obtain ⟨hri, hne⟩ := retired_insert T v p r.1 r.2 (by rw [hins]) i hr
          subst hq
          refine ⟨hri, ?_⟩
          intro hh hhn
          rw [← hn] at hhn
          cases hhn
          exact hne
  | rem hh =>
      simp only [poolStep] at hstep
      simp only [Option.some_inj, Prod.mk.injEq] at hstep
      obtain ⟨hq, hn⟩ := hstep
      subst hq
      refine ⟨retired_remove T p hh i hr, ?_⟩
      intro hh2 hhn
      rw [← hn] at hhn
      cases hhn

/-- Along any run of pool operations, a retired slot stays retired and no
insert returns a handle to it. -/
theorem retired_poolRun (T : Type) (p : GenerationalPool T) (i : Nat)
    (ops : List (PoolOp T)) (hr : Retired p i) :
    Retired (poolRun p ops).1 i ∧ ∀ hh ∈ (poolRun p ops).2, hh.index ≠ i := by
  induction ops generalizing p with
  | nil => exact ⟨hr, by intro hh hmem; simp [poolRun] at hmem⟩
  | cons op rest ih =>
      cases hstep : poolStep p op with
      | none =>
          simp only [poolRun, hstep]
          exact ⟨hr, by intro hh hmem; simp at hmem⟩
      | some r =>
          obtain ⟨q, hnew⟩ := r
          obtain ⟨hq, hne⟩ := retired_poolStep T p op i hr q hnew hstep
          obtain ⟨ih1, ih2⟩ := ih q hq
          simp only [poolRun, hstep]
          refine ⟨ih1, ?_⟩
          intro hh hmem
          rcases List.mem_append.mp hmem with hm | hm
          · cases hnew with
            | none => simp at hm
            | some hx =>
                simp only [Option.toList_some, List.mem_singleton] at hm
                subst hm
                exact hne hh rfl
          · exact ih2 hh hm

end Pool

namespace Pool

/-- C4 witness: inserting into a concrete one-slot pool whose free list is
empty grows the backing array by exactly one generation-0 slot. -/
theorem C4_insert_growth_and_reuse_witness :
    GenerationalPool.insert
        { items := [{ generation := 1, item := { next := none, value := some 5 } }]
          free_list := { next := none, is_free := { flags := [false] } } } (7 : Nat) =
      some ({ index := 1, generation := 0 },
        { items := [{ generation := 1, item := { next := none, value := some 5 } },
                    { generation := 0, item := { next := none, value := some 7 } }]
          free_list := { next := none, is_free := { flags := [false] } } }) :=
  (C4_insert_growth_and_reuse Nat 7
    { items := [{ generation := 1, item := { next := none, value := some 5 } }]
      free_list := { next := none, is_free := { flags := [false] } } }).1 rfl (by decide)

/-- C7: on a valid handle, `remove` bumps the slot's generation by one and
pushes the slot onto the free list — unless the generation has saturated at
`u32::MAX`, in which case the slot keeps its saturated generation, the free
list is untouched (the slot is never pushed), and, third conjunct, a retired
slot stays retired across every later sequence of insert/remove operations
and no later `insert` ever returns a handle with its index. -/
theorem C7_remove_saturation_retires_slot (T : Type) (p : GenerationalPool T)
    (h : Handle_) (slot : Slot T) (i : Nat) (ops : List (PoolOp T))
    (hs : p.items[h.index]? = some slot)
    (hfree : p.free_list.is_free.get h.index = false)
    (hgen : slot.generation = h.generation) :
    (slot.generation < 4294967295 →
      (∀ s, (p.remove h).2.items[h.index]? = some s →
        s.generation = slot.generation + 1) ∧
      (p.remove h).2.free_list.next = some h.index ∧
      (p.remove h).2.free_list.is_free.get h.index = true) ∧
    (slot.generation = 4294967295 →
      (∀ s, (p.remove h).2.items[h.index]? = some s →
        s.generation = 4294967295) ∧
      (p.remove h).2.free_list = p.free_list) ∧
    (Retired p i →
      Retired (poolRun p ops).1 i ∧ ∀ hh ∈ (poolRun p ops).2, hh.index ≠ i) := by
  have hblen : h.index < p.items.length := (List.getElem?_eq_some.mp hs).1
  have hrm : p.remove h =
      if slot.generation < 4294967295 then
        (some slot.item.value,
          { items := p.items.set h.index
                       { generation := slot.generation + 1
                         item := { next := p.free_list.next, value := none } }
            free_list := { next := some h.index
                           is_free := p.free_list.is_free.set h.index true } })
      else
        (some slot.item.value,
          { items := p.items.set h.index
                       { slot with item := { slot.item with value := none } }
            free_list := p.free_list }) := by
    unfold GenerationalPool.remove
    rw [hfree]
    simp only [Bool.false_eq_true, if_false]
    rw [hs]
    dsimp only
    rw [if_pos hgen]
  refine ⟨?_, ?_, ?_⟩
  · intro hlt
    rw [hrm, if_pos hlt]
    refine ⟨?_, rfl, FlagVec.get_set_self _ _ _⟩
    intro s hsi
    rw [List.getElem?_set_eq_of_lt _ hblen, Option.some_inj] at hsi
    subst hsi
    rfl
  · intro hmax
    have hnlt : ¬ slot.generation < 4294967295 := by omega
    rw [hrm, if_neg hnlt]
    refine ⟨?_, rfl⟩
    intro s hsi
    rw [List.getElem?_set_eq_of_lt _ hblen, Option.some_inj] at hsi
    subst hsi
    exact hmax
  · intro hret
    exact retired_poolRun T p i ops hret

/-- C7 witness: removing the only element of a concrete pool (generation 1,
unsaturated) pushes slot 0 back onto the free list with generation 2; the
retired-slot conjunct is exercised on a pool whose slot 0 has the saturated
generation. -/
theorem C7_remove_saturation_retires_slot_witness :
    (GenerationalPool.remove
        { items := [{ generation := 1, item := { next := none, value := some (9 : Nat) } }]
          free_list := { next := none, is_free := { flags := [false] } } }
        { index := 0, generation := 1 }).2.free_list.next = some 0 ∧
    Retired
      (poolRun
        { items := [{ generation := 4294967295
                      item := { next := none, value := some (3 : Nat) } }]
          free_list := { next := none, is_free := { flags := [false] } } }
        [PoolOp.ins 4]).1 0 :=
  ⟨((C7_remove_saturation_retires_slot Nat
      { items := [{ generation := 1, item := { next := none, value := some (9 : Nat) } }]
        free_list := { next := none, is_free := { flags := [false] } } }
      { index := 0, generation := 1 }
      { generation := 1, item := { next := none, value := some (9 : Nat) } }
      0 [] rfl rfl rfl).1 (by decide)).2.1,
   ((C7_remove_saturation_retires_slot Nat
      { items := [{ generation := 4294967295
                    item := { next := none, value := some (3 : Nat) } }]
        free_list := { next := none, is_free := { flags := [false] } } }
      { index := 0, generation := 4294967295 }
      { generation := 4294967295, item := { next := none, value := some (3 : Nat) } }
      0 [PoolOp.ins 4] rfl rfl rfl).2.2
      ⟨by decide,
       fun s hsx => by
         rw [List.getElem?_cons_zero, Option.some_inj] at hsx
         subst hsx
         rfl,
       by decide⟩).1⟩

end Pool

namespace Graph

/-- A successful `draw_immediate` appends one fresh node and links it under
`parent`; the resulting node array is whatever `linkChild` produced. -/
theorem draw_immediate_nodes (V R : Type) (g : RenderGraph V R) (parent : Nat)
    (vs : List V) (is : List Nat) (g' : RenderGraph V R)
    (h : g.draw_immediate parent vs is = some g') :
    linkChild
        (g.nodes ++ [{ next := 0, first_child := 0, last_child := 0, command := RenderGraphCommand.DrawImmediate (g.imm_indices.length % 65536) (is.length % 65536) }])
        parent (g.nodes.length % 65536) = some g'.nodes := by
  unfold RenderGraph.draw_immediate at h
  dsimp only at h
  split at h
  · obtain ⟨ns, hl, hg⟩ := Option.map_eq_some'.mp h
    rw [hl, ← hg]
  · simp at h

/-- A successful `draw_rect` appends one fresh node and links it under
`parent`. -/
theorem draw_rect_nodes (V R : Type) (g : RenderGraph V R) (parent : Nat)
    (v0 v1 v2 v3 : R) (g' : RenderGraph V R)
    (h : g.draw_rect parent v0 v1 v2 v3 = some g') :
    linkChild
        (g.nodes ++ [{ next := 0, first_child := 0, last_child := 0, command := RenderGraphCommand.DrawRect (g.imm_indices.length % 65536) (6 % 65536) }])
        parent (g.nodes.length % 65536) = some g'.nodes := by
  unfold RenderGraph.draw_rect at h
  dsimp only at h
  obtain ⟨ns, hl, hg⟩ := Option.map_eq_some'.mp h
  rw [hl, ← hg]

/-- C8: a graph built by adding three nodes (a `draw_immediate`, a
`draw_rect`, a `draw_immediate`, with arbitrary payloads) as children of the
root in that order has `iter_children(root) = [1, 2, 3]`, the node ids in
insertion order.  Restartability and non-mutation hold by construction: the
iterator borrows the graph immutably and the traversal here is a pure
function of the graph. -/
theorem C8_iter_children_in_insertion_order (V R : Type)
    (vs1 vs3 : List V) (is1 is3 : List Nat) (v0 v1 v2 v3 : R)
    (g1 g2 g3 : RenderGraph V R)
    (h1 : (RenderGraph.new V R).draw_immediate 0 vs1 is1 = some g1)
    (h2 : g1.draw_rect 0 v0 v1 v2 v3 = some g2)
    (h3 : g2.draw_immediate 0 vs3 is3 = some g3) :
    g3.iter_children 0 = some [1, 2, 3] := by
  have e1 := draw_immediate_nodes V R (RenderGraph.new V R) 0 vs1 is1 g1 h1
  have g1n : [{ next := 0, first_child := 1, last_child := 1
                command := RenderGraphCommand.Root },
              { next := 0, first_child := 0, last_child := 0
                command := RenderGraphCommand.DrawImmediate 0 (is1.length % 65536) }]
      = g1.nodes := Option.some_inj.mp e1
  have e2 := draw_rect_nodes V R g1 0 v0 v1 v2 v3 g2 h2
  rw [← g1n] at e2
  have g2n : [{ next := 0, first_child := 1, last_child := 2
                command := RenderGraphCommand.Root },
              { next := 2, first_child := 0, last_child := 0
                command := RenderGraphCommand.DrawImmediate 0 (is1.length % 65536) },
              { next := 0, first_child := 0, last_child := 0
                command := RenderGraphCommand.DrawRect (g1.imm_indices.length % 65536) 6 }]
      = g2.nodes := Option.some_inj.mp e2
  have e3 := draw_immediate_nodes V R g2 0 vs3 is3 g3 h3
  rw [← g2n] at e3
  have g3n : [{ next := 0, first_child := 1, last_child := 3
                command := RenderGraphCommand.Root },
              { next := 2, first_child := 0, last_child := 0
                command := RenderGraphCommand.DrawImmediate 0 (is1.length % 65536) },
              { next := 3, first_child := 0, last_child := 0
                command := RenderGraphCommand.DrawRect (g1.imm_indices.length % 65536) 6 },
              { next := 0, first_child := 0, last_child := 0
                command := RenderGraphCommand.DrawImmediate (g2.imm_indices.length % 65536)
                             (is3.length % 65536) }]
      = g3.nodes := Option.some_inj.mp e3
  unfold RenderGraph.iter_children
  rw [← g3n]
  rfl

/-- C8 witness: the scenario at concrete payloads — three draws under the
root of a fresh graph — with every intermediate graph written out. -/
theorem C8_iter_children_in_insertion_order_witness :
    RenderGraph.iter_children
      { imm_indices := [0, 0, 1, 2, 0, 2, 3, 1, 2]
        imm_vertices := [7, 8, 9]
        imm_rect_vertices := [1, 2, 3, 4]
        nodes := [{ next := 0, first_child := 1, last_child := 3, command := RenderGraphCommand.Root },
                  { next := 2, first_child := 0, last_child := 0, command := RenderGraphCommand.DrawImmediate 0 1 },
                  { next := 3, first_child := 0, last_child := 0, command := RenderGraphCommand.DrawRect 1 6 },
                  { next := 0, first_child := 0, last_child := 0, command := RenderGraphCommand.DrawImmediate 7 2 }] }
      0 = some [1, 2, 3] :=
  C8_iter_children_in_insertion_order Nat Nat [7] [8, 9] [0] [0, 1] 1 2 3 4
    { imm_indices := [0]
      imm_vertices := [7]
      imm_rect_vertices := []
      nodes := [{ next := 0, first_child := 1, last_child := 1, command := RenderGraphCommand.Root },
                { next := 0, first_child := 0, last_child := 0, command := RenderGraphCommand.DrawImmediate 0 1 }] }
    { imm_indices := [0, 0, 1, 2, 0, 2, 3]
      imm_vertices := [7]
      imm_rect_vertices := [1, 2, 3, 4]
      nodes := [{ next := 0, first_child := 1, last_child := 2, command := RenderGraphCommand.Root },
                { next := 2, first_child := 0, last_child := 0, command := RenderGraphCommand.DrawImmediate 0 1 },
                { next := 0, first_child := 0, last_child := 0, command := RenderGraphCommand.DrawRect 1 6 }] }
    { imm_indices := [0, 0, 1, 2, 0, 2, 3, 1, 2]
      imm_vertices := [7, 8, 9]
      imm_rect_vertices := [1, 2, 3, 4]
      nodes := [{ next := 0, first_child := 1, last_child := 3, command := RenderGraphCommand.Root },
                { next := 2, first_child := 0, last_child := 0, command := RenderGraphCommand.DrawImmediate 0 1 },
                { next := 3, first_child := 0, last_child := 0, command := RenderGraphCommand.DrawRect 1 6 },
                { next := 0, first_child := 0, last_child := 0, command := RenderGraphCommand.DrawImmediate 7 2 }] }
    rfl rfl rfl

end Graph

namespace Queue

/-- `is_complete` answers "fence_value ≤ max(cache, hardware)" and touches
nothing but the cached `last_value`. -/
theorem is_complete_spec (T : Type) (q : Graphics T) (completed : Nat)
    (v : SubmissionId) :
    ((q.is_complete completed v).1 = true ↔ v.val ≤ max q.last_value completed) ∧
    (q.is_complete completed v).2.submissions = q.submissions ∧
    (q.is_complete completed v).2.commands = q.commands ∧
    (q.is_complete completed v).2.next_value = q.next_value := by
  unfold Graphics.is_complete Graphics.poll_fence
  by_cases hlt : q.last_value < v.val
  · rw [if_pos hlt]
    refine ⟨?_, rfl, rfl, rfl⟩
    simp only [decide_eq_true_eq]
  · rw [if_neg hlt]
    refine ⟨?_, rfl, rfl, rfl⟩
    simp only [decide_eq_true_eq]
    omega

/-- C9: `record` hands back the oldest outstanding submission's payload, and
reuses its command allocator, exactly when that submission's id is complete
(its fence value is within the polled fence, `max last_value completed`), in
which case it is popped from the FIFO; when the oldest is not yet complete —
or the FIFO is empty — no payload is returned, the freshly created
allocator is used, and the outstanding FIFO is unchanged. -/
theorem C9_record_reuses_completed_front (T : Type) (q : Graphics T)
    (completed fresh_allocator fresh_commands : Nat) :
    (q.submissions = [] →
      (q.record completed fresh_allocator fresh_commands).1.2 = none ∧
      (q.record completed fresh_allocator fresh_commands).1.1.allocator
        = fresh_allocator ∧
      (q.record completed fresh_allocator fresh_commands).2.submissions = []) ∧
    ∀ sub rest, q.submissions = sub :: rest →
      (sub.fence_value.val ≤ max q.last_value completed →
        (q.record completed fresh_allocator fresh_commands).1.2 = some sub.data ∧
        (q.record completed fresh_allocator fresh_commands).1.1.allocator
          = sub.allocator ∧
        (q.record completed fresh_allocator fresh_commands).2.submissions = rest) ∧
      (¬ sub.fence_value.val ≤ max q.last_value completed →
        (q.record completed fresh_allocator fresh_commands).1.2 = none ∧
        (q.record completed fresh_allocator fresh_commands).1.1.allocator
          = fresh_allocator ∧
        (q.record completed fresh_allocator fresh_commands).2.submissions
          = sub :: rest) := by
  constructor
  · intro hemp
    unfold Graphics.record
    rw [hemp]
    dsimp only
    split <;> exact ⟨rfl, rfl, hemp⟩
  · intro sub rest hcons
    obtain ⟨hiff, hsubs, hcmds, hnext⟩ :=
      is_complete_spec T q completed sub.fence_value
    constructor
    · intro hcomp
      have hc : (q.is_complete completed sub.fence_value).1 = true := hiff.mpr hcomp
      unfold Graphics.record
      rw [hcons]
      dsimp only
      rw [if_pos hc]
      dsimp only
      split <;> exact ⟨rfl, rfl, by rw [hsubs, hcons]; try rfl⟩
    · intro hncomp
      have hc : (q.is_complete completed sub.fence_value).1 = false := by
        rcases Bool.eq_false_or_eq_true (q.is_complete completed sub.fence_value).1
          with hb | hb
        · exact absurd (hiff.mp hb) hncomp
        · exact hb
      unfold Graphics.record
      rw [hcons]
      dsimp only
      rw [if_neg (by simp [hc])]
      dsimp only
      split <;> exact ⟨rfl, rfl, hsubs.trans hcons⟩

/-- C9 witness: a concrete queue with one outstanding submission whose fence
value 1 is already completed by the hardware — `record` returns its payload
and allocator and empties the FIFO. -/
theorem C9_record_reuses_completed_front_witness :
    ((Graphics.record (T := Nat)
        { last_value := 0, next_value := 2, commands := []
          submissions := [{ data := 77, barriers := [], allocator := 5
                            fence_value := ⟨1⟩ }] }
        1 9 10).1.2 = some 77) ∧
    ((Graphics.record (T := Nat)
        { last_value := 0, next_value := 2, commands := []
          submissions := [{ data := 77, barriers := [], allocator := 5
                            fence_value := ⟨1⟩ }] }
        1 9 10).1.1.allocator = 5) :=
  ⟨(((C9_record_reuses_completed_front Nat
      { last_value := 0, next_value := 2, commands := []
        submissions := [{ data := 77, barriers := [], allocator := 5
                          fence_value := ⟨1⟩ }] }
      1 9 10).2
      { data := 77, barriers := [], allocator := 5, fence_value := ⟨1⟩ } []
      rfl).1 (by decide)).1,
   (((C9_record_reuses_completed_front Nat
      { last_value := 0, next_value := 2, commands := []
        submissions := [{ data := 77, barriers := [], allocator := 5
                          fence_value := ⟨1⟩ }] }
      1 9 10).2
      { data := 77, barriers := [], allocator := 5, fence_value := ⟨1⟩ } []
      rfl).1 (by decide)).2.1⟩

end Queue
